import Mathlib

/-!
Verification development for the gcp-cf repository: event-driven Cloud
Functions that relocate or lightly transform single objects in Google Cloud
Storage (rename by trimming a literal prefix, rewrite a delimited text file
under a derived name, export to SMB/SFTP), with secret-backed credential
acquisition.

The Go sources are shallowly embedded: object stores become association
lists, each storage / transfer function becomes a pure Lean function that
threads the store state explicitly, returns the Go function's error result
as an `Except`, and records the network operations it issued as a trace.
Environmental failures (a read, write, copy or delete failing for transport
reasons) are injected through an explicit `Faults` record; failures that are
forced by the store contents (object missing, precondition violated) arise
from the store itself.
-/

namespace GcpCf

/-- Payload bytes, each in `0..255` (Go `[]byte`). -/
abbrev Bytes := List Nat

/-- A bucket store: finite map from (bucket, object name) to content,
as an association list. -/
abbrev Store := List (String × String × Bytes)

/-- Look an object up by bucket and name. -/
def lookupObj : Store → String → String → Option Bytes
  | [], _, _ => none
  | (b, n, c) :: rest, bq, nq =>
      if b = bq ∧ n = nq then some c else lookupObj rest bq nq

/-- Remove every binding of (bucket, name). -/
def delObj : Store → String → String → Store
  | [], _, _ => []
  | (b, n, c) :: rest, bq, nq =>
      if b = bq ∧ n = nq then delObj rest bq nq else (b, n, c) :: delObj rest bq nq

/-- Create or overwrite the object (bucket, name). -/
def putObj (st : Store) (b n : String) (c : Bytes) : Store :=
  (b, n, c) :: delObj st b n

theorem lookupObj_delObj_same (st : Store) (b n : String) :
    lookupObj (delObj st b n) b n = none := by
  induction st with
  | nil => rfl
  | cons hd tl ih =>
    obtain ⟨b', n', c'⟩ := hd
    by_cases h : b' = b ∧ n' = n
    · simp [delObj, h, ih]
    · simp [delObj, h, lookupObj, ih]

theorem lookupObj_delObj_other (st : Store) (b n b' n' : String)
    (h : ¬ (b = b' ∧ n = n')) :
    lookupObj (delObj st b n) b' n' = lookupObj st b' n' := by
  induction st with
  | nil => rfl
  | cons hd tl ih =>
    obtain ⟨b0, n0, c0⟩ := hd
    by_cases h0 : b0 = b ∧ n0 = n
    · have hne : ¬ (b0 = b' ∧ n0 = n') := by
        rintro ⟨rfl, rfl⟩
        exact h ⟨h0.1.symm, h0.2.symm⟩
      simp only [delObj, lookupObj, if_pos h0, if_neg hne]
      exact ih
    · simp only [delObj, lookupObj, if_neg h0]
      by_cases h1 : b0 = b' ∧ n0 = n'
      · simp only [lookupObj, if_pos h1]
      · simp only [lookupObj, if_neg h1]
        exact ih

theorem lookupObj_putObj_same (st : Store) (b n : String) (c : Bytes) :
    lookupObj (putObj st b n c) b n = some c := by
  simp [putObj, lookupObj]

theorem lookupObj_putObj_other (st : Store) (b n b' n' : String) (c : Bytes)
    (h : ¬ (b = b' ∧ n = n')) :
    lookupObj (putObj st b n c) b' n' = lookupObj st b' n' := by
  simp only [putObj, lookupObj]
  rw [if_neg h, lookupObj_delObj_other st b n b' n' h]

/-- Error kinds surfaced by the embedded storage operations. -/
inductive GErr where
  | notFound
  | preconditionFailed
  | transport
deriving DecidableEq, Repr

/-- Injected environmental failures for one invocation: each flag forces the
corresponding network operation to fail with a transport error. -/
structure Faults where
  readFail : Bool
  copyFail : Bool
  writeFail : Bool
  deleteFail : Bool
deriving DecidableEq, Repr

/-- An invocation with no injected failures. -/
def noFaults : Faults := ⟨false, false, false, false⟩

/-- One network call against the object store, as recorded in a trace. -/
inductive NetCall where
  | read (bucket name : String)
  | copy (srcBucket srcName dstBucket dstName : String)
  | write (bucket name : String) (content : Bytes)
  | delete (bucket name : String)
deriving DecidableEq, Repr

instance {ε α : Type} [DecidableEq ε] [DecidableEq α] : DecidableEq (Except ε α) :=
  fun a b =>
    match a, b with
    | Except.ok x, Except.ok y =>
        if h : x = y then isTrue (by rw [h])
        else isFalse (by intro hc; injection hc; contradiction)
    | Except.ok _, Except.error _ => isFalse (by intro hc; injection hc)
    | Except.error _, Except.ok _ => isFalse (by intro hc; injection hc)
    | Except.error x, Except.error y =>
        if h : x = y then isTrue (by rw [h])
        else isFalse (by intro hc; injection hc; contradiction)

/-- `Object(name).NewReader` + `io.ReadAll`: read the full object, failing
with NotFound when it does not exist. -/
def gcsRead (f : Faults) (st : Store) (b n : String) : Except GErr Bytes :=
  if f.readFail then .error .transport
  else
    match lookupObj st b n with
    | some c => .ok c
    | none => .error .notFound

/-- `Object(dst).NewWriter` + `io.Copy` + `Writer.Close`: create or overwrite
the destination object.  No precondition is attached at this call site in the
source, so an existing destination is silently replaced. -/
def gcsWrite (f : Faults) (st : Store) (b n : String) (c : Bytes) :
    Except GErr Store :=
  if f.writeFail then .error .transport else .ok (putObj st b n c)

/-- `dst.CopierFrom(src).Run`: server-side copy.  When `doesNotExist` is set
(`storage.Conditions{DoesNotExist: true}`), the copy is rejected with
PreconditionFailed whenever the destination already exists. -/
def gcsCopy (f : Faults) (st : Store) (sb sn db dn : String)
    (doesNotExist : Bool) : Except GErr Store :=
  if f.copyFail then .error .transport
  else
    match lookupObj st sb sn with
    | none => .error .notFound
    | some c =>
        if doesNotExist ∧ (lookupObj st db dn).isSome then .error .preconditionFailed
        else .ok (putObj st db dn c)

/-- `Object(name).Delete`: delete an object, failing with NotFound when it is
absent. -/
def gcsDelete (f : Faults) (st : Store) (b n : String) : Except GErr Store :=
  if f.deleteFail then .error .transport
  else
    match lookupObj st b n with
    | none => .error .notFound
    | some _ => .ok (delObj st b n)

/-! ### Models of the Go `strings` helpers used by the pipelines

Object names are ASCII in all the code's filters and literals, so the
character-level `String.data` view coincides with Go's byte-level view on
every name the functions inspect. -/

/-- `strings.HasPrefix s pre`. -/
def hasPre (s pre : String) : Bool := pre.data.isPrefixOf s.data

/-- `strings.HasSuffix s suf`. -/
def hasSuf (s suf : String) : Bool := suf.data.isSuffixOf s.data

/-- `strings.Contains s (string c)` for a one-character separator. -/
def containsChar (s : String) (c : Char) : Bool := s.data.contains c

/-- `strings.TrimPrefix s pre`: drop `pre` from the front when present,
otherwise return `s` unchanged. -/
def trimPre (s pre : String) : String :=
  if hasPre s pre then String.mk (s.data.drop pre.data.length) else s

/-! ### Literal byte substitution

`replaceQuotes` pipes the object's bytes through two chained
`ios.NewBytesReplacingReader` filters.  Each filter replaces every
occurrence of a literal byte sequence `pat` by `rep` in a streamed input,
emitting a byte as soon as it can no longer begin a match and holding back
at most `pat.length - 1` bytes across read-chunk boundaries.  `repAll` is
the materialized replace-everything function (leftmost, non-overlapping,
replacement text never rescanned); `streamReplace` is the streaming state
machine.  Both are stated for the nonempty patterns the source uses. -/

/-- Materialized replace-all: replace every occurrence of `pat` by `rep`,
scanning left to right, never rescanning emitted replacement text.
The degenerate empty pattern is the identity (unused by the source). -/
def repAll (pat rep : Bytes) (xs : Bytes) : Bytes :=
  if _hp : pat = [] then xs
  else
    match xs with
    | [] => []
    | x :: rest =>
        if pat.isPrefixOf (x :: rest) then
          rep ++ repAll pat rep (rest.drop (pat.length - 1))
        else
          x :: repAll pat rep rest
termination_by xs.length
decreasing_by
  · simp only [List.length_drop, List.length_cons]
    omega
  · simp only [List.length_cons]
    omega

/-- One step of the streaming replacer: `b` is the held-back bytes plus the
newly arrived byte.  A completed match emits the replacement; a viable
partial match is held back; otherwise the oldest byte is emitted and the
rest re-examined.  Returns (emitted bytes, new held-back buffer). -/
def absorb (pat rep : Bytes) (b : Bytes) : Bytes × Bytes :=
  if b = pat then (rep, [])
  else if b.isPrefixOf pat then ([], b)
  else
    match b with
    | [] => ([], [])
    | x :: rest =>
        let p := absorb pat rep rest
        (x :: p.1, p.2)

/-- Run the streaming replacer over the input bytes with held-back buffer
`pend`; at end of stream the held-back bytes are flushed unchanged. -/
def streamRun (pat rep : Bytes) (pend : Bytes) : Bytes → Bytes
  | [] => pend
  | c :: rest =>
      let a := absorb pat rep (pend ++ [c])
      a.1 ++ streamRun pat rep a.2 rest

/-- The streaming replacer on a whole stream: one `BytesReplacingReader`. -/
def streamReplace (pat rep : Bytes) (xs : Bytes) : Bytes :=
  streamRun pat rep [] xs

/-- `sed "s/~~/,/g"`: pattern `~~`. -/
def pat1 : Bytes := [126, 126]

/-- Replacement `,`. -/
def rep1 : Bytes := [44]

/-- `sed "s/\"\",\"\"/\",\"/g"`: pattern `"",""`. -/
def pat2 : Bytes := [34, 34, 44, 34, 34]

/-- Replacement `","`. -/
def rep2 : Bytes := [34, 44, 34]

/-- The transform performed by `replaceQuotes`' chained readers: the second
streaming filter consumes the first filter's output stream. -/
def replaceQuotesTransform (xs : Bytes) : Bytes :=
  streamReplace pat2 rep2 (streamReplace pat1 rep1 xs)

/-- The spec's description of the same transform: materialize the payload,
apply the first substitution rule completely, then apply the second rule to
the intermediate result. -/
def replaceQuotesBatch (xs : Bytes) : Bytes :=
  repAll pat2 rep2 (repAll pat1 rep1 xs)

theorem repAll_short (pat rep : Bytes) :
    ∀ xs : Bytes, xs.length < pat.length → repAll pat rep xs = xs := by
  intro xs
  induction xs with
  | nil =>
      intro _
      rw [repAll]
      split
      · rfl
      · rfl
  | cons x rest ih =>
      intro h
      have hne : ¬ pat = [] := by
        intro hp0
        rw [hp0] at h
        simp at h
      have hnp : ¬ pat.isPrefixOf (x :: rest) = true := by
        intro hpp
        have hle := List.isPrefixOf_iff_prefix.mp hpp
        have := hle.length_le
        omega
      rw [repAll, dif_neg hne, if_neg hnp]
      have hlt : rest.length < pat.length := by
        simp only [List.length_cons] at h
        omega
      rw [ih hlt]

theorem repAll_head_match (pat rep : Bytes) (hp : pat ≠ []) (xs : Bytes)
    (h : pat <+: xs) :
    repAll pat rep xs = rep ++ repAll pat rep (xs.drop pat.length) := by
  match xs with
  | [] =>
      have : pat = [] := List.prefix_nil.mp h
      exact absurd this hp
  | x :: rest =>
      have hpp : pat.isPrefixOf (x :: rest) = true := List.isPrefixOf_iff_prefix.mpr h
      rw [repAll, dif_neg hp, if_pos hpp]
      match pat, hp with
      | p :: ps, _ =>
          simp only [List.length_cons, Nat.add_sub_cancel, List.drop_succ_cons]

theorem repAll_head_clear (pat rep : Bytes) (hp : pat ≠ []) (x : Nat) (xs : Bytes)
    (h : ¬ pat <+: (x :: xs)) :
    repAll pat rep (x :: xs) = x :: repAll pat rep xs := by
  have hpp : ¬ pat.isPrefixOf (x :: xs) = true := by
    intro hc
    exact h ( List.isPrefixOf_iff_prefix.mp hc)
  rw [repAll, dif_neg hp, if_neg hpp]

theorem absorb_spec (pat rep : Bytes) (hp : pat ≠ []) :
    ∀ b : Bytes, b.length ≤ pat.length →
      ((absorb pat rep b).2 <+: pat ∧ (absorb pat rep b).2 ≠ pat) ∧
      ∀ ys : Bytes,
        (absorb pat rep b).1 ++ repAll pat rep ((absorb pat rep b).2 ++ ys)
          = repAll pat rep (b ++ ys) := by
  intro b
  induction b with
  | nil =>
      intro _
      have h1 : ¬ ([] : Bytes) = pat := fun hc => hp hc.symm
      have h2 : (([] : Bytes).isPrefixOf pat) = true := by
        apply List.isPrefixOf_iff_prefix.mpr
        simp
      rw [absorb, if_neg h1, if_pos h2]
      constructor
      · constructor
        · simp
        · exact h1
      · intro ys
        simp
  | cons x rest ih =>
      intro hlen
      by_cases hbp : x :: rest = pat
      · rw [absorb, if_pos hbp]
        constructor
        · constructor
          · simp
          · exact fun hc => hp hc.symm
        · intro ys
          simp only [List.nil_append]
          rw [hbp, repAll_head_match pat rep hp (pat ++ ys) (List.prefix_append pat ys),
            List.drop_left]
      · by_cases hpf : (x :: rest).isPrefixOf pat = true
        · rw [absorb, if_neg hbp, if_pos hpf]
          constructor
          · exact ⟨ List.isPrefixOf_iff_prefix.mp hpf, hbp⟩
          · intro ys
            simp
        · have hrest : rest.length ≤ pat.length := by
            simp only [List.length_cons] at hlen
            omega
          obtain ⟨⟨ha1, ha2⟩, ha3⟩ := ih hrest
          rw [absorb, if_neg hbp, if_neg hpf]
          constructor
          · exact ⟨ha1, ha2⟩
          · intro ys
            have hnom : ¬ pat <+: (x :: (rest ++ ys)) := by
              intro hc
              have hxr : (x :: rest) <+: (x :: rest) ++ ys := List.prefix_append _ _
              have hsub : (x :: rest) <+: pat := by
                apply List.prefix_of_prefix_length_le hxr _ hlen
                simpa using hc
              exact hpf ( List.isPrefixOf_iff_prefix.mpr hsub)
            calc (x :: (absorb pat rep rest).1)
                  ++ repAll pat rep ((absorb pat rep rest).2 ++ ys)
                = x :: ((absorb pat rep rest).1
                    ++ repAll pat rep ((absorb pat rep rest).2 ++ ys)) := by simp
              _ = x :: repAll pat rep (rest ++ ys) := by rw [ha3 ys]
              _ = repAll pat rep (x :: (rest ++ ys)) :=
                  (repAll_head_clear pat rep hp x (rest ++ ys) hnom).symm
              _ = repAll pat rep ((x :: rest) ++ ys) := by simp

theorem streamRun_eq (pat rep : Bytes) (hp : pat ≠ []) :
    ∀ xs pend : Bytes, pend <+: pat → pend ≠ pat →
      streamRun pat rep pend xs = repAll pat rep (pend ++ xs) := by
  intro xs
  induction xs with
  | nil =>
      intro pend h1 h2
      have hlt : pend.length < pat.length := by
        have hle := h1.length_le
        rcases Nat.lt_or_ge pend.length pat.length with h | h
        · exact h
        · exact absurd (h1.eq_of_length (Nat.le_antisymm hle h)) h2
      rw [streamRun, List.append_nil, repAll_short pat rep pend hlt]
  | cons c rest ih =>
      intro pend h1 h2
      have hlt : pend.length < pat.length := by
        have hle := h1.length_le
        rcases Nat.lt_or_ge pend.length pat.length with h | h
        · exact h
        · exact absurd (h1.eq_of_length (Nat.le_antisymm hle h)) h2
      have hlen : (pend ++ [c]).length ≤ pat.length := by
        simp only [List.length_append, List.length_cons, List.length_nil]
        omega
      obtain ⟨⟨ha1, ha2⟩, ha3⟩ := absorb_spec pat rep hp (pend ++ [c]) hlen
      rw [streamRun]
      rw [ih (absorb pat rep (pend ++ [c])).2 ha1 ha2, ha3 rest]
      simp

theorem streamReplace_eq_repAll (pat rep : Bytes) (hp : pat ≠ []) (xs : Bytes) :
    streamReplace pat rep xs = repAll pat rep xs := by
  have h1 : ([] : Bytes) <+: pat := by simp
  have h2 : ([] : Bytes) ≠ pat := fun hc => hp hc.symm
  rw [streamReplace, streamRun_eq pat rep hp xs [] h1 h2, List.nil_append]

/-! ### Destination-name derivation (`setDestFileName`)

The source computes the file-name component with
`regexp.MustCompile(".*\\/").ReplaceAllString(srcObjectName, "")`: the
greedy leftmost match swallows everything up to and including the last `/`
(for names without newline characters, which `.` does not match), leaving
the last path segment.  `strings.Cut(fileName, "|")` yields the part before
the first `|`; the extension is appended when missing; and
`strings.Replace(srcObjectName, fileName, dstName, 1)` substitutes the
*first* occurrence of the file-name component in the full source name. -/

/-- The last path segment of a name: everything after the last `/`. -/
def fileNamePart (l : List Char) : List Char :=
  (l.reverse.takeWhile (fun c => ¬ (c = '/'))).reverse

/-- Everything up to and including the last `/` (empty when there is no
`/`). -/
def dirPart (l : List Char) : List Char :=
  (l.reverse.dropWhile (fun c => ¬ (c = '/'))).reverse

theorem dirPart_append_fileNamePart (l : List Char) :
    dirPart l ++ fileNamePart l = l := by
  rw [dirPart, fileNamePart, ← List.reverse_append,
    List.takeWhile_append_dropWhile, List.reverse_reverse]

/-- `strings.Replace s pat rep 1`: replace the first occurrence of `pat`
in `s` by `rep`. -/
def replaceFirst (s pat rep : List Char) : List Char :=
  if pat.isPrefixOf s then rep ++ s.drop pat.length
  else
    match s with
    | [] => []
    | c :: rest => c :: replaceFirst rest pat rep

/-- The new file-name component: `strings.Cut(fileName, "|")`'s part before
the first `|`, with the extension appended when not already a suffix. -/
def cutName (srcObjectName extension : String) : List Char :=
  let afterCut := (fileNamePart srcObjectName.data).takeWhile (fun c => ¬ (c = '|'))
  if extension.data.isSuffixOf afterCut then afterCut
  else afterCut ++ extension.data

/-- `setDestFileName srcObjectName extension` from the rewrite variant:
cut the file-name component before the `|` separator, append the extension
when missing, and substitute — via `strings.Replace(src, fileName, dstName,
1)` — the first occurrence of the file-name component inside the full
name. -/
def setDestFileName (srcObjectName extension : String) : String :=
  String.mk (replaceFirst srcObjectName.data (fileNamePart srcObjectName.data)
    (cutName srcObjectName extension))

/-- The naming rule as the spec words it: the destination name is the
source name with its last path segment replaced by the portion before the
delimiter (extension appended when missing), the directory portion being
preserved unchanged. -/
def specDelimiterCutName (srcObjectName extension : String) : String :=
  String.mk (dirPart srcObjectName.data ++ cutName srcObjectName extension)

theorem replaceFirst_no_early (pat rep : List Char) :
    ∀ a b : List Char, pat.isPrefixOf b = true →
      (∀ i : Nat, i < a.length → pat.isPrefixOf ((a ++ b).drop i) = false) →
      replaceFirst (a ++ b) pat rep = a ++ (rep ++ b.drop pat.length) := by
  intro a
  induction a with
  | nil =>
      intro b hb _
      rw [List.nil_append, List.nil_append, replaceFirst.eq_def, if_pos hb]
  | cons x a' ih =>
      intro b hb hno
      have h0 : pat.isPrefixOf ((x :: a') ++ b) = false := by
        have := hno 0 (by simp)
        simpa using this
      rw [List.cons_append, replaceFirst.eq_def]
      rw [List.cons_append] at h0
      rw [if_neg (by simp [h0])]
      show x :: replaceFirst (a' ++ b) pat rep = _
      have hno' : ∀ i : Nat, i < a'.length →
          pat.isPrefixOf ((a' ++ b).drop i) = false := by
        intro i hi
        have := hno (i + 1) (by simp; omega)
        simpa using this
      rw [ih b hb hno']
      simp

/-! ### The rename pipeline (`renamefile.trimPrefix`) -/

/-- `trimPrefix bucketName objectName`: when the name starts with the
literal prefix `"0000"`, copy the object to the name with the prefix
trimmed — the destination guarded by a `DoesNotExist` generation-match
precondition — and then delete the source; otherwise do nothing and
succeed.  Returns the Go error result, the resulting store, and the trace
of storage calls issued. -/
def trimPrefix (st : Store) (f : Faults) (bucketName objectName : String) :
    Except GErr Unit × Store × List NetCall :=
  if hasPre objectName "0000" then
    let dstName := trimPre objectName "0000"
    match gcsCopy f st bucketName objectName bucketName dstName true with
    | .error e =>
        (.error e, st, [NetCall.copy bucketName objectName bucketName dstName])
    | .ok st1 =>
        match gcsDelete f st1 bucketName objectName with
        | .error e =>
            (.error e, st1,
              [NetCall.copy bucketName objectName bucketName dstName,
               NetCall.delete bucketName objectName])
        | .ok st2 =>
            (.ok (), st2,
              [NetCall.copy bucketName objectName bucketName dstName,
               NetCall.delete bucketName objectName])
  else (.ok (), st, [])

/-! ### The rewrite pipeline (`renamefile.processFile`) -/

/-- The file extensions eligible for processing. -/
def extensions : List String := [".csv", ".txt"]

/-- `replaceQuotes bucketName objectName`: read the object and pipe its
bytes through the two chained substitution filters.  Returns the content
result and the trace of storage calls. -/
def replaceQuotes (st : Store) (f : Faults) (bucketName objectName : String) :
    Except GErr Bytes × List NetCall :=
  match gcsRead f st bucketName objectName with
  | .error e => (.error e, [NetCall.read bucketName objectName])
  | .ok data =>
      (.ok (replaceQuotesTransform data), [NetCall.read bucketName objectName])

/-- `saveObject bucketName srcObjectName dstObjectName`: obtain the
transformed content — the error result of `replaceQuotes` is discarded by
`content, _ := replaceQuotes(...)`, leaving `nil` content on failure —
write it to the destination (no precondition), and then delete the source
object. -/
def saveObject (st : Store) (f : Faults)
    (bucketName srcObjectName dstObjectName : String) :
    Except GErr Unit × Store × List NetCall :=
  let rq := replaceQuotes st f bucketName srcObjectName
  let content : Bytes :=
    match rq.1 with
    | .ok c => c
    | .error _ => []
  match gcsWrite f st bucketName dstObjectName content with
  | .error e =>
      (.error e, st, rq.2 ++ [NetCall.write bucketName dstObjectName content])
  | .ok st1 =>
      match gcsDelete f st1 bucketName srcObjectName with
      | .error e =>
          (.error e, st1,
            rq.2 ++ [NetCall.write bucketName dstObjectName content,
                     NetCall.delete bucketName srcObjectName])
      | .ok st2 =>
          (.ok (), st2,
            rq.2 ++ [NetCall.write bucketName dstObjectName content,
                     NetCall.delete bucketName srcObjectName])

/-- One iteration of `processFile`'s loop over `extensions`: when the name
ends with the extension and contains the `|` separator, run `saveObject`
(whose result value is discarded at the call site). -/
def processFileStep (f : Faults) (bucketName objectName : String)
    (acc : Store × List NetCall) (ext : String) : Store × List NetCall :=
  if hasSuf objectName ext ∧ containsChar objectName '|' then
    let dstObjectName := setDestFileName objectName ext
    let r := saveObject acc.1 f bucketName objectName dstObjectName
    (r.2.1, acc.2 ++ r.2.2)
  else acc

/-- `processFile`: for each configured extension, when the object name ends
with it and contains `|`, derive the destination name and call
`saveObject`.  The Go function ignores `saveObject`'s return value and
always returns `nil`. -/
def processFile (st : Store) (f : Faults) (bucketName objectName : String) :
    Except GErr Unit × Store × List NetCall :=
  let r := extensions.foldl (processFileStep f bucketName objectName) (st, [])
  (.ok (), r.1, r.2)

/-! ### The SFTP export pipeline (`exporttosftp.exportFiles`)

The remote SFTP file system is a separate map from path to content.  Both
copies of the package share `downloadFileIntoMemory` and
`uploadFileToSFTP`; they differ only in whether `exportFiles` returns the
upload's error result. -/

/-- The remote SFTP file system: map from path to content. -/
abbrev RemoteFs := List (String × Bytes)

/-- Look up a remote path. -/
def lookupR : RemoteFs → String → Option Bytes
  | [], _ => none
  | (p, c) :: rest, q => if p = q then some c else lookupR rest q

/-- Remove every binding of a remote path. -/
def delR : RemoteFs → String → RemoteFs
  | [], _ => []
  | (p, c) :: rest, q => if p = q then delR rest q else (p, c) :: delR rest q

/-- Create or overwrite a remote file. -/
def putR (fs : RemoteFs) (p : String) (c : Bytes) : RemoteFs :=
  (p, c) :: delR fs p

/-- Injected failures for the SFTP transport: `OpenFile` failing, or
`io.Copy` failing after the file was opened (created/truncated). -/
structure SftpFaults where
  openFail : Bool
  copyFail : Bool
deriving DecidableEq, Repr

/-- An SFTP session with no injected failures. -/
def noSftpFaults : SftpFaults := ⟨false, false⟩

/-- `downloadFileIntoMemory bucket object`: read the whole object. -/
def downloadFileIntoMemory (f : Faults) (st : Store) (bucket object : String) :
    Except GErr Bytes :=
  gcsRead f st bucket object

/-- `uploadFileToSFTP filename data`: open `folder/filename` with
`O_WRONLY|O_CREATE|O_TRUNC` (overwrite-on-exists, no precondition) and copy
the payload into it. -/
def uploadFileToSFTP (rfs : RemoteFs) (sf : SftpFaults)
    (filename : String) (data : Bytes) : Except GErr Unit × RemoteFs :=
  let dstFile := "folder/" ++ filename
  if sf.openFail then (.error .transport, rfs)
  else if sf.copyFail then (.error .transport, putR rfs dstFile [])
  else (.ok (), putR rfs dstFile data)

/-- `exportFiles` (first copy of the package): download the object, failing
the invocation with the wrapped download error, then upload it over SFTP,
returning the upload's error result. -/
def exportFiles (st : Store) (rfs : RemoteFs) (f : Faults) (sf : SftpFaults)
    (bucketName objectName : String) : Except GErr Unit × RemoteFs :=
  match downloadFileIntoMemory f st bucketName objectName with
  | .error e => (.error e, rfs)
  | .ok data => uploadFileToSFTP rfs sf objectName data

/-- `exportFiles` (second copy of the package): identical, except the call
`uploadFileToSFTP(objectName, data)` stands alone and its error result is
discarded — the function then returns `nil`. -/
def exportFilesSecond (st : Store) (rfs : RemoteFs) (f : Faults)
    (sf : SftpFaults) (bucketName objectName : String) :
    Except GErr Unit × RemoteFs :=
  match downloadFileIntoMemory f st bucketName objectName with
  | .error e => (.error e, rfs)
  | .ok data => (.ok (), (uploadFileToSFTP rfs sf objectName data).2)

/-! ### Secret access with CRC32C integrity verification

`accessSecretVersion` (identical in the SFTP and NAS packages) recomputes
`crc32.Checksum(result.Payload.Data, crc32.MakeTable(crc32.Castagnoli))`
and compares it, as an `int64`, with `*result.Payload.DataCrc32C`.  The
CRC is embedded bit by bit with the reflected Castagnoli polynomial
`0x82F63B78`, initial value `0xFFFFFFFF` and final xor `0xFFFFFFFF`, which
is exactly the function the table-driven Go implementation computes. -/

/-- The reflected Castagnoli polynomial. -/
def crc32cPoly : Nat := 0x82F63B78

/-- One bit step of the reflected CRC32C. -/
def crc32cStep (c : Nat) : Nat :=
  if c % 2 = 1 then (c / 2) ^^^ crc32cPoly else c / 2

/-- Fold one payload byte into the CRC state. -/
def crc32cByte (c b : Nat) : Nat :=
  crc32cStep^[8] (c ^^^ (b % 256))

/-- CRC32C (Castagnoli) of a byte sequence. -/
def crc32c (data : Bytes) : Nat :=
  (data.foldl crc32cByte 0xFFFFFFFF) ^^^ 0xFFFFFFFF

/-- `accessSecretVersion`, after the payload and its accompanying expected
checksum have been fetched: recompute the CRC32C over the payload, compare
with the expected `int64` checksum, and return the payload (Go's
`string(result.Payload.Data)`, the same bytes) only on agreement. -/
def accessSecretVersion (payloadData : Bytes) (payloadDataCrc32C : Int) :
    Except String Bytes :=
  if (crc32c payloadData : Int) = payloadDataCrc32C then .ok payloadData
  else .error "data corruption detected"

/-! ### Shared helper lemmas -/

theorem replaceQuotes_trace (st : Store) (f : Faults) (b n : String) :
    (replaceQuotes st f b n).2 = [NetCall.read b n] := by
  rw [replaceQuotes]
  cases gcsRead f st b n with
  | error e => rfl
  | ok data => rfl

theorem trimPre_ne_self (n : String) (h : hasPre n "0000" = true) :
    ¬ n = trimPre n "0000" := by
  intro hc
  have h4 : ("0000".data).length = 4 := by decide
  have hle := ( List.isPrefixOf_iff_prefix.mp h).length_le
  rw [h4] at hle
  rw [trimPre, if_pos h] at hc
  have hlen := congrArg (fun s : String => s.data.length) hc
  simp only [List.length_drop, h4] at hlen
  omega

/-! ### The claims -/

/-- Claim C5: for every input byte sequence, the composed streaming
substitution pipeline of `replaceQuotes` — first rule `~~` → `,`, second
rule `"",""` → `","`, the second reading the first's output stream —
produces the same bytes as materializing the full payload, applying the
first replace-all completely, and then applying the second replace-all to
the intermediate result: sequential rule application, not interleaved. -/
theorem c5_substitution_pipeline_sequential :
    ∀ xs : Bytes, replaceQuotesTransform xs = replaceQuotesBatch xs := by
  intro xs
  rw [replaceQuotesTransform, replaceQuotesBatch,
    streamReplace_eq_repAll pat1 rep1 (by decide) xs,
    streamReplace_eq_repAll pat2 rep2 (by decide) (repAll pat1 rep1 xs)]

/-- Claim C8: `accessSecretVersion` returns the secret payload only when
the recomputed CRC32C (Castagnoli) checksum equals the expected checksum
accompanying the payload; whenever the two disagree it returns the
integrity error and the payload is never returned. -/
theorem c8_secret_checksum_guard :
    (∀ (p : Bytes) (e : Int) (s : Bytes),
       accessSecretVersion p e = .ok s → (crc32c p : Int) = e ∧ s = p) ∧
    (∀ (p : Bytes) (e : Int), (crc32c p : Int) ≠ e →
       accessSecretVersion p e = .error "data corruption detected") := by
  constructor
  · intro p e s h
    rw [accessSecretVersion] at h
    by_cases hc : (crc32c p : Int) = e
    · rw [if_pos hc] at h
      injection h with h2
      exact ⟨hc, h2.symm⟩
    · rw [if_neg hc] at h
      cases h
  · intro p e h
    rw [accessSecretVersion, if_neg h]

theorem c8_secret_checksum_guard_witness :
    ((crc32c [] : Int) = 0 ∧ ([] : Bytes) = []) ∧
    accessSecretVersion [] 1 = .error "data corruption detected" :=
  ⟨c8_secret_checksum_guard.1 [] 0 [] (by decide),
   c8_secret_checksum_guard.2 [] 1 (by decide)⟩

/-- Claim C1: in both delete-bearing variants the source delete is issued
only after a successful destination write.  When the rename variant's copy
fails, the invocation aborts with that error, the store is unchanged (the
source object remains present) and the trace holds no delete call; when
the rewrite variant's writer fails, likewise. -/
theorem c1_write_before_delete :
    (∀ (st : Store) (f : Faults) (b n : String) (e : GErr),
       hasPre n "0000" = true →
       gcsCopy f st b n b (trimPre n "0000") true = .error e →
       trimPrefix st f b n
         = (.error e, st, [NetCall.copy b n b (trimPre n "0000")])) ∧
    (∀ (st : Store) (f : Faults) (b src dst : String),
       f.writeFail = true →
       ∃ c : Bytes, saveObject st f b src dst
         = (.error GErr.transport, st,
            [NetCall.read b src, NetCall.write b dst c])) := by
  constructor
  · intro st f b n e h hc
    simp only [ trimPrefix, h, if_true, hc]
  · intro st f b src dst hw
    refine ⟨match (replaceQuotes st f b src).1 with
            | .ok c => c
            | .error _ => [], ?_⟩
    have hwr : ∀ content : Bytes,
        gcsWrite f st b dst content = .error GErr.transport := by
      intro content
      rw [gcsWrite, hw]
      rfl
    simp only [saveObject, hwr, replaceQuotes_trace]
    rfl

theorem c1_write_before_delete_witness :
    trimPrefix [("b", "0000x", [1])] ⟨false, true, false, false⟩ "b" "0000x"
      = (.error GErr.transport, [("b", "0000x", [1])],
         [NetCall.copy "b" "0000x" "b" (trimPre "0000x" "0000")]) ∧
    ∃ c : Bytes,
      saveObject [("b", "s|1.csv", [2])] ⟨false, false, true, false⟩
          "b" "s|1.csv" "s.csv"
        = (.error GErr.transport, [("b", "s|1.csv", [2])],
           [NetCall.read "b" "s|1.csv", NetCall.write "b" "s.csv" c]) :=
  ⟨c1_write_before_delete.1 [("b", "0000x", [1])] ⟨false, true, false, false⟩
      "b" "0000x" GErr.transport (by decide) (by decide),
   c1_write_before_delete.2 [("b", "s|1.csv", [2])] ⟨false, false, true, false⟩
      "b" "s|1.csv" "s.csv" (by decide)⟩

/-- Claim C2 counterexample: the same-store rewrite variant `saveObject`
attaches no precondition to its destination write.  With an object already
present at the destination path, the invocation succeeds and silently
overwrites it, instead of being rejected with PreconditionFailed as the
claim states for every same-store rewrite/rename invocation. -/
theorem c2_counterexample :
    (saveObject [("b", "a|1.csv", [49]), ("b", "a.csv", [50])] noFaults
        "b" "a|1.csv" "a.csv").1 = .ok () ∧
    lookupObj (saveObject [("b", "a|1.csv", [49]), ("b", "a.csv", [50])]
        noFaults "b" "a|1.csv" "a.csv").2.1 "b" "a.csv" = some [49] :=
  ⟨by decide, by decide⟩

/-- Claim C2 amended: only the same-store rename variant `trimPrefix`
carries the does-not-exist generation-match precondition — its copy is
rejected with PreconditionFailed whenever an object already exists at the
destination path, with the store unchanged and the source not deleted —
while the rewrite variant `saveObject` writes unconditionally and
overwrites any existing destination object. -/
theorem c2_amended_precondition_only_in_rename :
    (∀ (st : Store) (f : Faults) (b n : String) (c0 c1 : Bytes),
       hasPre n "0000" = true → f.copyFail = false →
       lookupObj st b n = some c0 →
       lookupObj st b (trimPre n "0000") = some c1 →
       trimPrefix st f b n
         = (.error GErr.preconditionFailed, st,
            [NetCall.copy b n b (trimPre n "0000")])) ∧
    (∀ (st : Store) (f : Faults) (b src dst : String) (data : Bytes),
       f.readFail = false → f.writeFail = false → f.deleteFail = false →
       lookupObj st b src = some data → src ≠ dst →
       (saveObject st f b src dst).1 = .ok () ∧
       lookupObj (saveObject st f b src dst).2.1 b dst
         = some (replaceQuotesTransform data)) := by
  constructor
  · intro st f b n c0 c1 h hcf hl hdst
    have hc : gcsCopy f st b n b (trimPre n "0000") true
        = .error GErr.preconditionFailed := by
      rw [gcsCopy, hcf]
      simp [hl, hdst]
    simp only [ trimPrefix, h, if_true, hc]
  · intro st f b src dst data hr hw hd hl hne
    have hps : ¬ (b = b ∧ dst = src) := by
      rintro ⟨-, h2⟩
      exact hne h2.symm
    have hps2 : ¬ (b = b ∧ src = dst) := by
      rintro ⟨-, h2⟩
      exact hne h2
    have hrq : replaceQuotes st f b src
        = (.ok (replaceQuotesTransform data), [NetCall.read b src]) := by
      rw [replaceQuotes, gcsRead, hr]
      simp [hl]
    have hwr : gcsWrite f st b dst (replaceQuotesTransform data)
        = .ok (putObj st b dst (replaceQuotesTransform data)) := by
      rw [gcsWrite, hw]
      rfl
    have hlk : lookupObj (putObj st b dst (replaceQuotesTransform data)) b src
        = some data := by
      rw [lookupObj_putObj_other st b dst b src (replaceQuotesTransform data) hps]
      exact hl
    have hdel : gcsDelete f (putObj st b dst (replaceQuotesTransform data)) b src
        = .ok (delObj (putObj st b dst (replaceQuotesTransform data)) b src) := by
      rw [gcsDelete, hd]
      simp [hlk]
    have hsv : saveObject st f b src dst
        = (.ok (), delObj (putObj st b dst (replaceQuotesTransform data)) b src,
           [NetCall.read b src,
            NetCall.write b dst (replaceQuotesTransform data),
            NetCall.delete b src]) := by
      simp only [saveObject, hrq, hwr, hdel]
      rfl
    rw [hsv]
    refine ⟨rfl, ?_⟩
    show lookupObj (delObj (putObj st b dst (replaceQuotesTransform data)) b src)
        b dst = some (replaceQuotesTransform data)
    rw [lookupObj_delObj_other _ b src b dst hps2]
    exact lookupObj_putObj_same st b dst (replaceQuotesTransform data)

theorem c2_amended_witness :
    trimPrefix [("b", "0000x", [1]), ("b", "x", [2])] noFaults "b" "0000x"
      = (.error GErr.preconditionFailed,
         [("b", "0000x", [1]), ("b", "x", [2])],
         [NetCall.copy "b" "0000x" "b" (trimPre "0000x" "0000")]) ∧
    ((saveObject [("b", "a|1.csv", [49]), ("b", "a.csv", [50])] noFaults
        "b" "a|1.csv" "a.csv").1 = .ok () ∧
     lookupObj (saveObject [("b", "a|1.csv", [49]), ("b", "a.csv", [50])]
        noFaults "b" "a|1.csv" "a.csv").2.1 "b" "a.csv"
       = some (replaceQuotesTransform [49])) :=
  ⟨c2_amended_precondition_only_in_rename.1
      [("b", "0000x", [1]), ("b", "x", [2])] noFaults "b" "0000x" [1] [2]
      (by decide) rfl (by decide) (by decide),
   c2_amended_precondition_only_in_rename.2
      [("b", "a|1.csv", [49]), ("b", "a.csv", [50])] noFaults
      "b" "a|1.csv" "a.csv" [49] rfl rfl rfl (by decide) (by decide)⟩

/-- Claim C3 (code bug): the claim — every stage failure is returned from
the pipeline entry point to the invoking event layer — is violated:
`processFile` ignores `saveObject`'s error result at its call site and
unconditionally returns success, and the second copy of the SFTP
`exportFiles` likewise discards `uploadFileToSFTP`'s error result.  The
first conjunct shows the unconditional success return of `processFile`;
the others evaluate failing write/upload stages at concrete inputs where
the entry point nevertheless reports success. -/
theorem c3_stage_errors_discarded :
    (∀ (st : Store) (f : Faults) (b n : String),
       (processFile st f b n).1 = .ok ()) ∧
    ((saveObject [("b", "r|1.csv", [5])] ⟨false, false, true, false⟩
        "b" "r|1.csv" "r.csv").1 = .error GErr.transport ∧
     (processFile [("b", "r|1.csv", [5])] ⟨false, false, true, false⟩
        "b" "r|1.csv").1 = .ok ()) ∧
    ((uploadFileToSFTP [] ⟨true, false⟩ "a.csv" [7]).1
        = .error GErr.transport ∧
     (exportFilesSecond [("b", "a.csv", [7])] [] noFaults ⟨true, false⟩
        "b" "a.csv").1 = .ok ()) := by
  refine ⟨?_, ⟨by decide, by decide⟩, ⟨by decide, by decide⟩⟩
  intro st f b n
  rfl

/-- Claim C4 counterexample: `setDestFileName` substitutes the *first*
occurrence of the file-name component in the source name, not the last
path segment.  On `"a|b.csv/a|b.csv"` (eligible: ends in `.csv`, contains
`|`) the directory portion is rewritten and the file-name component kept,
the opposite of the claimed rule. -/
theorem c4_counterexample :
    setDestFileName "a|b.csv/a|b.csv" ".csv" = "a.csv/a|b.csv" ∧
    specDelimiterCutName "a|b.csv/a|b.csv" ".csv" = "a|b.csv/a.csv" ∧
    ¬ setDestFileName "a|b.csv/a|b.csv" ".csv"
        = specDelimiterCutName "a|b.csv/a|b.csv" ".csv" :=
  ⟨by decide, by decide, by decide⟩

/-- Claim C4 amended: the derived destination name is the source name with
the *first occurrence* of the file-name component replaced by the portion
before the delimiter (extension appended when missing).  Whenever no
occurrence of the file-name component starts inside the directory portion
— in particular for ordinary names whose last segment does not also appear
earlier in the path — this coincides with the claimed rule of replacing
the last path segment while preserving the directory portion; the example
`"folder/66000_report|2023.csv"` yields `"folder/66000_report.csv"`. -/
theorem c4_amended_first_occurrence_replaced :
    (∀ src ext : String,
       (∀ i : Nat, i < (dirPart src.data).length →
          (fileNamePart src.data).isPrefixOf (src.data.drop i) = false) →
       setDestFileName src ext = specDelimiterCutName src ext) ∧
    setDestFileName "folder/66000_report|2023.csv" ".csv"
      = "folder/66000_report.csv" := by
  constructor
  · intro src ext hno
    have hsplit : dirPart src.data ++ fileNamePart src.data = src.data :=
      dirPart_append_fileNamePart src.data
    have hpf : (fileNamePart src.data).isPrefixOf (fileNamePart src.data)
        = true :=
      List.isPrefixOf_iff_prefix.mpr ( List.prefix_refl _)
    have hno' : ∀ i : Nat, i < (dirPart src.data).length →
        (fileNamePart src.data).isPrefixOf
          ((dirPart src.data ++ fileNamePart src.data).drop i) = false := by
      intro i hi
      rw [hsplit]
      exact hno i hi
    have hrf := replaceFirst_no_early (fileNamePart src.data)
      (cutName src ext) (dirPart src.data) (fileNamePart src.data) hpf hno'
    rw [hsplit] at hrf
    rw [setDestFileName, specDelimiterCutName, hrf, List.drop_length,
      List.append_nil]
  · decide

theorem c4_amended_witness :
    setDestFileName "folder/66000_report|2023.csv" ".csv"
      = specDelimiterCutName "folder/66000_report|2023.csv" ".csv" :=
  c4_amended_first_occurrence_replaced.1 "folder/66000_report|2023.csv" ".csv"
    (by decide)

/-- Claim C6: when the object name starts with the literal prefix
`"0000"`, the rename pipeline copies the object to the name with that
prefix removed and deletes the original; when it does not, the invocation
is a no-op success — no write, no delete, no network call, no error. -/
theorem c6_rename_trims_or_skips :
    (∀ (st : Store) (f : Faults) (b n : String) (data : Bytes),
       hasPre n "0000" = true → f.copyFail = false → f.deleteFail = false →
       lookupObj st b n = some data →
       lookupObj st b (trimPre n "0000") = none →
       trimPrefix st f b n
         = (.ok (), delObj (putObj st b (trimPre n "0000") data) b n,
            [NetCall.copy b n b (trimPre n "0000"),
             NetCall.delete b n])) ∧
    (∀ (st : Store) (f : Faults) (b n : String),
       hasPre n "0000" = false →
       trimPrefix st f b n = (.ok (), st, [])) := by
  constructor
  · intro st f b n data h hcf hdf hl hdst
    have hne : ¬ n = trimPre n "0000" := trimPre_ne_self n h
    have hps : ¬ (b = b ∧ trimPre n "0000" = n) := by
      rintro ⟨-, h2⟩
      exact hne h2.symm
    have hcopy : gcsCopy f st b n b (trimPre n "0000") true
        = .ok (putObj st b (trimPre n "0000") data) := by
      rw [gcsCopy, hcf]
      simp [hl, hdst]
    have hlk : lookupObj (putObj st b (trimPre n "0000") data) b n
        = some data := by
      rw [lookupObj_putObj_other st b (trimPre n "0000") b n data hps]
      exact hl
    have hdel : gcsDelete f (putObj st b (trimPre n "0000") data) b n
        = .ok (delObj (putObj st b (trimPre n "0000") data) b n) := by
      rw [gcsDelete, hdf]
      simp [hlk]
    simp only [ trimPrefix, h, if_true, hcopy, hdel]
  · intro st f b n h
    simp [ trimPrefix, h]

theorem c6_rename_trims_or_skips_witness :
    trimPrefix [("b", "0000invoice.csv", [1, 2])] noFaults
        "b" "0000invoice.csv"
      = (.ok (),
         delObj (putObj [("b", "0000invoice.csv", [1, 2])] "b"
             (trimPre "0000invoice.csv" "0000") [1, 2]) "b" "0000invoice.csv",
         [NetCall.copy "b" "0000invoice.csv" "b"
             (trimPre "0000invoice.csv" "0000"),
          NetCall.delete "b" "0000invoice.csv"]) ∧
    trimPre "0000invoice.csv" "0000" = "invoice.csv" ∧
    trimPrefix [("b", "invoice.csv", [1, 2])] noFaults "b" "invoice.csv"
      = (.ok (), [("b", "invoice.csv", [1, 2])], []) :=
  ⟨c6_rename_trims_or_skips.1 [("b", "0000invoice.csv", [1, 2])] noFaults
      "b" "0000invoice.csv" [1, 2] (by decide) rfl rfl (by decide) (by decide),
   by decide,
   c6_rename_trims_or_skips.2 [("b", "invoice.csv", [1, 2])] noFaults
      "b" "invoice.csv" (by decide)⟩

/-- Claim C7: eligibility is decided purely on the name, before any
network I/O.  A name without the `|` delimiter or without an eligible
extension makes `processFile` terminate successfully with an unchanged
store and an empty trace of network calls, and a name without the `"0000"`
prefix makes `trimPrefix` do likewise. -/
theorem c7_ineligible_means_no_network_calls :
    (∀ (st : Store) (f : Faults) (b n : String),
       containsChar n '|' = false ∨
         (hasSuf n ".csv" = false ∧ hasSuf n ".txt" = false) →
       processFile st f b n = (.ok (), st, [])) ∧
    (∀ (st : Store) (f : Faults) (b n : String),
       hasPre n "0000" = false →
       trimPrefix st f b n = (.ok (), st, [])) := by
  constructor
  · intro st f b n h
    have h1 : ¬ (hasSuf n ".csv" = true ∧ containsChar n '|' = true) := by
      rcases h with h | ⟨hs, -⟩
      · rintro ⟨-, hc⟩
        rw [h] at hc
        cases hc
      · rintro ⟨hc, -⟩
        rw [hs] at hc
        cases hc
    have h2 : ¬ (hasSuf n ".txt" = true ∧ containsChar n '|' = true) := by
      rcases h with h | ⟨-, hs⟩
      · rintro ⟨-, hc⟩
        rw [h] at hc
        cases hc
      · rintro ⟨hc, -⟩
        rw [hs] at hc
        cases hc
    rw [processFile]
    simp only [extensions, List.foldl, processFileStep, if_neg h1, if_neg h2]
  · intro st f b n h
    simp [ trimPrefix, h]

theorem c7_ineligible_means_no_network_calls_witness :
    processFile [("b", "report.csv", [3])] noFaults "b" "report.csv"
      = (.ok (), [("b", "report.csv", [3])], []) ∧
    processFile [("b", "a|b.pdf", [3])] noFaults "b" "a|b.pdf"
      = (.ok (), [("b", "a|b.pdf", [3])], []) ∧
    trimPrefix [("b", "report.csv", [3])] noFaults "b" "report.csv"
      = (.ok (), [("b", "report.csv", [3])], []) :=
  ⟨c7_ineligible_means_no_network_calls.1 [("b", "report.csv", [3])] noFaults
      "b" "report.csv" (Or.inl (by decide)),
   c7_ineligible_means_no_network_calls.1 [("b", "a|b.pdf", [3])] noFaults
      "b" "a|b.pdf" (Or.inr (by decide)),
   c7_ineligible_means_no_network_calls.2 [("b", "report.csv", [3])] noFaults
      "b" "report.csv" (by decide)⟩

/-- Claim C9 counterexample: a re-delivered event whose source object has
already been moved does not end as a no-op success — the SFTP `exportFiles`
returns the wrapped fetch failure to the invoking layer instead of
terminating without escalating it. -/
theorem c9_counterexample :
    (exportFiles [] [] noFaults noSftpFaults "b" "gone.csv").1
        = .error GErr.notFound ∧
    ¬ (exportFiles [] [] noFaults noSftpFaults "b" "gone.csv").1 = .ok () :=
  ⟨by decide, by decide⟩

/-- Claim C9 amended: when the source object no longer exists, the fetch
fails cleanly with NotFound and `exportFiles` terminates by returning that
wrapped error to the invoking event layer — no upload is attempted, the
remote file system is untouched, and there is no crash — rather than
treating the re-delivery as a successful no-op. -/
theorem c9_amended_redelivery_fails_cleanly :
    ∀ (st : Store) (rfs : RemoteFs) (f : Faults) (sf : SftpFaults)
      (b n : String),
      f.readFail = false → lookupObj st b n = none →
      exportFiles st rfs f sf b n = (.error GErr.notFound, rfs) := by
  intro st rfs f sf b n hr hl
  rw [exportFiles, downloadFileIntoMemory, gcsRead, hr]
  simp [hl]

theorem c9_amended_redelivery_fails_cleanly_witness :
    exportFiles [] [] noFaults noSftpFaults "b" "gone.csv"
      = (.error GErr.notFound, []) :=
  c9_amended_redelivery_fails_cleanly [] [] noFaults noSftpFaults
    "b" "gone.csv" rfl (by decide)

/-- Claim C10: `saveObject` discards the error result of `replaceQuotes`
(`content, _ := replaceQuotes(...)`): when reading/transforming the source
fails, the pipeline nevertheless writes the destination object with empty
content, then deletes the source, and reports success — the invocation is
not aborted.  (The subsequent write and delete are assumed to succeed;
a failing write is covered by the write-before-delete theorem.) -/
theorem c10_read_error_yields_empty_destination :
    ∀ (st : Store) (f : Faults) (b src dst : String) (data : Bytes),
      f.readFail = true → f.writeFail = false → f.deleteFail = false →
      lookupObj st b src = some data → src ≠ dst →
      saveObject st f b src dst
        = (.ok (), delObj (putObj st b dst []) b src,
           [NetCall.read b src, NetCall.write b dst [],
            NetCall.delete b src]) ∧
      lookupObj (saveObject st f b src dst).2.1 b dst = some [] ∧
      lookupObj (saveObject st f b src dst).2.1 b src = none := by
  intro st f b src dst data hr hw hd hl hne
  have hps : ¬ (b = b ∧ dst = src) := by
    rintro ⟨-, h2⟩
    exact hne h2.symm
  have hps2 : ¬ (b = b ∧ src = dst) := by
    rintro ⟨-, h2⟩
    exact hne h2
  have hrq : replaceQuotes st f b src
      = (.error GErr.transport, [NetCall.read b src]) := by
    rw [replaceQuotes, gcsRead, hr]
    rfl
  have hwr : gcsWrite f st b dst [] = .ok (putObj st b dst []) := by
    rw [gcsWrite, hw]
    rfl
  have hlk : lookupObj (putObj st b dst []) b src = some data := by
    rw [lookupObj_putObj_other st b dst b src [] hps]
    exact hl
  have hdel : gcsDelete f (putObj st b dst []) b src
      = .ok (delObj (putObj st b dst []) b src) := by
    rw [gcsDelete, hd]
    simp [hlk]
  have hsv : saveObject st f b src dst
      = (.ok (), delObj (putObj st b dst []) b src,
         [NetCall.read b src, NetCall.write b dst [],
          NetCall.delete b src]) := by
    simp only [saveObject, hrq, hwr, hdel]
    rfl
  refine ⟨hsv, ?_, ?_⟩
  · rw [hsv]
    show lookupObj (delObj (putObj st b dst []) b src) b dst = some []
    rw [lookupObj_delObj_other _ b src b dst hps2]
    exact lookupObj_putObj_same st b dst []
  · rw [hsv]
    exact lookupObj_delObj_same _ b src

theorem c10_read_error_yields_empty_destination_witness :
    (saveObject [("b", "r|1.csv", [5])] ⟨true, false, false, false⟩
        "b" "r|1.csv" "r.csv"
      = (.ok (), delObj (putObj [("b", "r|1.csv", [5])] "b" "r.csv" [])
           "b" "r|1.csv",
         [NetCall.read "b" "r|1.csv", NetCall.write "b" "r.csv" [],
          NetCall.delete "b" "r|1.csv"]) ∧
     lookupObj (saveObject [("b", "r|1.csv", [5])] ⟨true, false, false, false⟩
        "b" "r|1.csv" "r.csv").2.1 "b" "r.csv" = some [] ∧
     lookupObj (saveObject [("b", "r|1.csv", [5])] ⟨true, false, false, false⟩
        "b" "r|1.csv" "r.csv").2.1 "b" "r|1.csv" = none) :=
  c10_read_error_yields_empty_destination [("b", "r|1.csv", [5])]
    ⟨true, false, false, false⟩ "b" "r|1.csv" "r.csv" [5]
    rfl rfl rfl (by decide) (by decide)

end GcpCf
